import Mathlib

/-!
Shallow embedding of PythonPipes: wrappers around map, filter, reduce
(file piped_map_filter_reduce.py) and sum, sorted, reversed
(file piped_sorted_reversed_sum.py) that add partial application and
pipe-style invocation.

Iterables are modelled as `List Int`, dynamic positional arguments as the
small dynamic type `Val` (an int or a list — only lists carry the
`__iter__` attribute), keyword arguments as association lists from
`String` to `KwVal`, and failures of the underlying primitives as
`Except PyErr`.
-/

/-- Dynamic runtime errors raised by the underlying primitives
(all the errors relevant here are Python `TypeError`s). -/
inductive PyErr where
  | typeError
  deriving DecidableEq, Repr

/-- A dynamic Python value as far as this library manipulates one:
an integer (no `__iter__` attribute) or a list (has `__iter__`). -/
inductive Val where
  | int (n : Int)
  | list (xs : List Int)
  deriving DecidableEq, Repr

/-- `hasattr(v, "__iter__")`: in this model exactly the lists are iterable. -/
def hasIterAttr : Val → Bool
  | .list _ => true
  | .int _ => false

/-- A keyword-argument value (a bool such as `reverse`, or an int such as
`start`). -/
inductive KwVal where
  | bool (b : Bool)
  | int (n : Int)
  deriving DecidableEq, Repr

/-- Keyword arguments: a Python dict modelled as an association list
(keys unique in any dict built by the code). -/
abbrev Kwargs : Type := List (String × KwVal)

/-- Dict key membership: `k in d`. -/
def containsKw : Kwargs → String → Bool
  | [], _ => false
  | p :: rest, k => if p.1 = k then true else containsKw rest k

/-- Dict lookup: `d[k]` as an `Option`. -/
def lookupKw : Kwargs → String → Option KwVal
  | [], _ => none
  | p :: rest, k => if p.1 = k then some p.2 else lookupKw rest k

/-- Python dict merge `{**stored, **new}`: keys of `new` override keys of
`stored`; a stored pair survives only if `new` does not rebind its key. -/
def mergeKw : Kwargs → Kwargs → Kwargs
  | [], new => new
  | p :: rest, new =>
    if containsKw new p.1 then mergeKw rest new else p :: mergeKw rest new

/-- Truthiness of the `iterable=None` default parameter: `if iterable:`
holds exactly when a nonempty list was supplied. -/
def truthy : Option (List Int) → Bool
  | some (_ :: _) => true
  | _ => false

/-- Builtin `map(function, iterable)` for a unary `function`, eagerly
listed. Extra positional iterables or any keyword argument make the unary
function misapplied / `map` reject the call, a `TypeError`. -/
def mapTrans (function : Int → Int) (iterable : List Int) (args : List Val)
    (kwargs : Kwargs) : Except PyErr (List Int) :=
  match args, kwargs with
  | [], [] => .ok (List.map function iterable)
  | _, _ => .error .typeError

/-- Builtin `filter(function, iterable)`, eagerly listed. `filter` takes
exactly two arguments and no keywords; anything more is a `TypeError`. -/
def filterTrans (function : Int → Bool) (iterable : List Int) (args : List Val)
    (kwargs : Kwargs) : Except PyErr (List Int) :=
  match args, kwargs with
  | [], [] => .ok (List.filter function iterable)
  | _, _ => .error .typeError

/-- `functools.reduce(function, iterable[, initial])`. With no initial
value an empty iterable is a `TypeError`; an initial int seeds the fold;
an initial list is returned untouched over an empty iterable but makes
the binary int function misapplied otherwise; more than one extra
argument is a `TypeError`. -/
def pyReduce (function : Int → Int → Int) (xs : List Int) (extras : List Val) :
    Except PyErr Val :=
  match extras with
  | [] =>
    match xs with
    | [] => .error .typeError
    | h :: t => .ok (.int (t.foldl function h))
  | [.int i] => .ok (.int (xs.foldl function i))
  | [.list l] =>
    match xs with
    | [] => .ok (.list l)
    | _ :: _ => .error .typeError
  | _ => .error .typeError

/-- `reduce` wrapped as a transformation in `PartialBase` position:
`reduce(function, iterable, *extras)`; `reduce` accepts no keywords. -/
def reduceTrans (function : Int → Int → Int) (iterable : List Int)
    (args : List Val) (kwargs : Kwargs) : Except PyErr Val :=
  match kwargs with
  | [] => pyReduce function iterable args
  | _ => .error .typeError

/-- Class `PartialBase`: a deferred operation holding the transformation
(the real primitive, fixed by each subclass), the user function, and the
extra positional and keyword arguments supplied at construction. -/
structure PartialBase (φ ρ : Type) where
  transformation : φ → List Int → List Val → Kwargs → Except PyErr ρ
  function : φ
  args : List Val
  kwargs : Kwargs

/-- `PartialBase.__call__(self, iterable, *args, **kwargs)`:
`updated_kwargs = {**self.kwargs, **kwargs}`, then
`self.transformation(self.function, iterable, *self.args, *args, **updated_kwargs)`. -/
def PartialBase.call (self : PartialBase φ ρ) (iterable : List Int)
    (args : List Val) (kwargs : Kwargs) : Except PyErr ρ :=
  self.transformation self.function iterable (self.args ++ args)
    (mergeKw self.kwargs kwargs)

/-- `PartialBase.__ror__(self, iterable)`: piping calls the object on the
left-hand iterable with no extra arguments. -/
def PartialBase.ror (self : PartialBase φ ρ) (iterable : List Int) :
    Except PyErr ρ :=
  self.call iterable [] []

/-- Result of a wrapper call: either the primitive was applied
immediately, or a deferred `PartialBase` object was produced. -/
inductive WrapResult (ι φ ρ : Type) where
  | immediate (result : ι)
  | deferred (op : PartialBase φ ρ)

/-- Whether a wrapper call took the immediate path. -/
def WrapResult.isImmediate : WrapResult ι φ ρ → Bool
  | .immediate _ => true
  | .deferred _ => false

/-- The sequence produced by the immediate path, if that path was taken. -/
def immediateElems : WrapResult (List Int) φ ρ → Option (List Int)
  | .immediate xs => some xs
  | .deferred _ => none

/-- `emap(function, iterable=None)`: `if iterable:` apply `map` at once,
otherwise return `PartialMap(function)` (no extra args or kwargs stored).
The dispatch tests truthiness, so `None` and the empty list both defer. -/
def emap (function : Int → Int) (iterable : Option (List Int) := none) :
    WrapResult (List Int) (Int → Int) (List Int) :=
  match iterable with
  | some (x :: xs) => .immediate (List.map function (x :: xs))
  | _ => .deferred ⟨mapTrans, function, [], []⟩

/-- `efilter(function, iterable=None)`: `if iterable:` apply `filter` at
once, otherwise return `PartialFilter(function)`. -/
def efilter (function : Int → Bool) (iterable : Option (List Int) := none) :
    WrapResult (List Int) (Int → Bool) (List Int) :=
  match iterable with
  | some (x :: xs) => .immediate (List.filter function (x :: xs))
  | _ => .deferred ⟨filterTrans, function, [], []⟩

/-- `ereduce(function, *args)`: `if args and hasattr(args[0], "__iter__")`
apply `reduce(function, *args)` at once — in this model `hasattr`
holds exactly for `Val.list` — otherwise return
`PartialReduce(function, *args)` with all the supplied args stored. -/
def ereduce (function : Int → Int → Int) (args : List Val) :
    WrapResult (Except PyErr Val) (Int → Int → Int) Val :=
  match args with
  | .list xs :: rest => .immediate (pyReduce function xs rest)
  | _ => .deferred ⟨reduceTrans, function, args, []⟩

/-- Insert into a le-sorted list (stable insertion sort step). -/
def sortInsert (le : Int → Int → Bool) (x : Int) : List Int → List Int
  | [] => [x]
  | y :: ys => if le x y then x :: y :: ys else y :: sortInsert le x ys

/-- Insertion sort by the given boolean order. -/
def insertionSort (le : Int → Int → Bool) : List Int → List Int
  | [] => []
  | x :: xs => sortInsert le x (insertionSort le xs)

/-- Builtin `sorted(iterable, reverse=...)` on ints: ascending, or
descending when `reverse` is true. -/
def pySort (xs : List Int) (reverse : Bool) : List Int :=
  if reverse then insertionSort (fun a b => decide (b ≤ a)) xs
  else insertionSort (fun a b => decide (a ≤ b)) xs

/-- The primitive an iterable-first wrapper wraps: `sum`, `sorted` or
`reversed`. -/
inductive Prim where
  | sum
  | sorted
  | reversed
  deriving DecidableEq, Repr

/-- Extract the `reverse` keyword for `sorted`: absent means `False`,
a non-`reverse` keyword (the `key` keyword is not modelled — no call in
this development passes one) or a non-bool value is a `TypeError` for
the int comparisons performed here. -/
def getReverse (kwargs : Kwargs) : Except PyErr Bool :=
  match kwargs with
  | [] => .ok false
  | [("reverse", .bool b)] => .ok b
  | _ => .error .typeError

/-- Builtin `sum(iterable, start=0)`: `start` may come positionally or as
a keyword; anything else is a `TypeError`. -/
def applySum (args : List Val) (kwargs : Kwargs) : Except PyErr Val :=
  match args, kwargs with
  | [.list xs], [] => .ok (.int (xs.foldl (· + ·) 0))
  | [.list xs], [("start", .int i)] => .ok (.int (xs.foldl (· + ·) i))
  | [.list xs, .int i], [] => .ok (.int (xs.foldl (· + ·) i))
  | _, _ => .error .typeError

/-- Builtin `sorted(iterable, reverse=...)` with a dynamic argument list:
exactly one positional argument, which must be iterable. -/
def applySorted (args : List Val) (kwargs : Kwargs) : Except PyErr Val :=
  match args with
  | [.list xs] =>
    match getReverse kwargs with
    | .ok b => .ok (.list (pySort xs b))
    | .error e => .error e
  | _ => .error .typeError

/-- Builtin `reversed(sequence)`: exactly one iterable argument, no
keywords, listed eagerly. -/
def applyReversed (args : List Val) (kwargs : Kwargs) : Except PyErr Val :=
  match args, kwargs with
  | [.list xs], [] => .ok (.list xs.reverse)
  | _, _ => .error .typeError

/-- `function(*args, **kwargs)` for the wrapped primitive. -/
def applyPrim : Prim → List Val → Kwargs → Except PyErr Val
  | .sum, args, kwargs => applySum args kwargs
  | .sorted, args, kwargs => applySorted args kwargs
  | .reversed, args, kwargs => applyReversed args kwargs

/-- Class `PartialPipe`: a deferred operation of the iterable-first
family, holding the primitive itself and the construction-time args and
kwargs. -/
structure PartialPipe where
  function : Prim
  args : List Val
  kwargs : Kwargs

/-- `PartialPipe.__call__(self, iterable)`:
`self.function(iterable, *self.args, **self.kwargs)`. -/
def PartialPipe.call (self : PartialPipe) (iterable : List Int) :
    Except PyErr Val :=
  applyPrim self.function (.list iterable :: self.args) self.kwargs

/-- `PartialPipe.__ror__(self, iterable)`: piping is invocation. -/
def PartialPipe.ror (self : PartialPipe) (iterable : List Int) :
    Except PyErr Val :=
  self.call iterable

/-- Python call protocol for a `PartialPipe` object when the caller also
passes keyword arguments: the declared signature `__call__(self, iterable)`
accepts none, so any keyword argument raises `TypeError` before the body
runs; with none, the call proceeds as `PartialPipe.call`. -/
def PartialPipe.callWith (self : PartialPipe) (iterable : List Int)
    (callKwargs : Kwargs) : Except PyErr Val :=
  match callKwargs with
  | [] => self.call iterable
  | _ => .error .typeError

/-- Result of calling an iterable-first wrapper object: the primitive's
immediate result, or a deferred `PartialPipe`. -/
inductive PipeResult where
  | immediate (result : Except PyErr Val)
  | deferredP (op : PartialPipe)

/-- Class `FunctionPartialPipe` reduced to its one datum: the wrapped
primitive returned by the abstract `function()` (subclasses `ESum`,
`ESorted`, `EReversed` each fix it). -/
structure FunctionPartialPipe where
  function : Prim

/-- `FunctionPartialPipe.__call__(self, *args, **kwargs)`: if there is a
first positional argument and it has `__iter__`, apply the primitive to
all supplied arguments at once; otherwise return
`PartialPipe(function, *args, **kwargs)`. -/
def FunctionPartialPipe.call (self : FunctionPartialPipe) (args : List Val)
    (kwargs : Kwargs) : PipeResult :=
  match args with
  | a :: rest =>
    if hasIterAttr a then .immediate (applyPrim self.function (a :: rest) kwargs)
    else .deferredP ⟨self.function, a :: rest, kwargs⟩
  | [] => .deferredP ⟨self.function, [], kwargs⟩

/-- `FunctionPartialPipe.__ror__(self, iterable)`: apply the primitive
directly to the piped iterable, with no other arguments. -/
def FunctionPartialPipe.ror (self : FunctionPartialPipe)
    (iterable : List Int) : Except PyErr Val :=
  applyPrim self.function [.list iterable] []

/-- Module-level instance `esum = ESum()`. -/
def esum : FunctionPartialPipe := ⟨.sum⟩

/-- Module-level instance `esorted = ESorted()`. -/
def esorted : FunctionPartialPipe := ⟨.sorted⟩

/-- Module-level instance `ereversed = EReversed()`. -/
def ereversed : FunctionPartialPipe := ⟨.reversed⟩

/-! ## Lemmas about the keyword-argument dict model -/

/-- A key is absent from a dict exactly when lookup fails. -/
theorem lookupKw_eq_none_iff (l : Kwargs) (k : String) :
    lookupKw l k = none ↔ containsKw l k = false := by
  induction l with
  | nil => simp [lookupKw, containsKw]
  | cons p rest ih =>
    by_cases hpk : p.1 = k <;> simp [lookupKw, containsKw, hpk, ih]

/-- Lookup in the Python dict merge; the right (call-time) dict wins on a
key collision, otherwise the left (stored) dict answers. -/
theorem lookup_mergeKw (a b : Kwargs) (k : String) :
    lookupKw (mergeKw a b) k
      = match lookupKw b k with
        | some v => some v
        | none => lookupKw a k := by
  induction a with
  | nil =>
    cases h : lookupKw b k <;> simp [mergeKw, h, lookupKw]
  | cons p rest ih =>
    cases hc : containsKw b p.1 with
    | true =>
      rw [mergeKw]
      simp only [hc, if_true, ih]
      cases h : lookupKw b k with
      | some v => simp
      | none =>
        simp only []
        by_cases hpk : p.1 = k
        · exfalso
          rw [hpk] at hc
          rw [lookupKw_eq_none_iff] at h
          rw [h] at hc
          exact Bool.false_ne_true hc
        · simp [lookupKw, hpk]
    | false =>
      rw [mergeKw]
      simp only [hc, if_false]
      by_cases hpk : p.1 = k
      · have hb : lookupKw b k = none := by
          rw [lookupKw_eq_none_iff]
          rw [hpk] at hc
          exact hc
        simp [lookupKw, hpk, hb]
      · cases h : lookupKw b k <;> simp [lookupKw, hpk, h, ih]

/-! ## Claim theorems -/

/-- C1 counterexample: at the empty sequence, `emap` returns a deferred
object, not the (empty) mapped sequence the direct `map` primitive
produces, so the claim fails as universally stated. -/
theorem c1_counterexample :
    immediateElems (emap (fun x => x + 1) (some []))
      ≠ some (List.map (fun x => x + 1) []) := by
  simp [emap, immediateElems]

/-- C1 (amended to truthy, i.e. nonempty, sequences): for every function
`f` and every nonempty sequence `s`, `emap f s` applies the underlying
map primitive immediately, element for element. -/
theorem c1_map_immediate (f : Int → Int) (s : List Int) (h : s ≠ []) :
    emap f (some s) = .immediate (List.map f s) := by
  cases s with
  | nil => exact absurd rfl h
  | cons x xs => rfl

/-- C1 witness: concrete nonempty input. -/
theorem c1_witness :
    (([1, 2, 3] : List Int) ≠ [])
      ∧ emap (fun x => x * 2) (some [1, 2, 3]) = .immediate [2, 4, 6] :=
  ⟨by decide, c1_map_immediate (fun x => x * 2) [1, 2, 3] (by decide)⟩

/-- C2 counterexample: at the empty sequence the deferred application
`emap f none` applied to `[]` yields the empty sequence, while the
immediate form `emap f (some [])` yields no sequence at all (it is itself
a deferred object), so the two are not equal. -/
theorem c2_counterexample :
    PartialBase.call ⟨mapTrans, fun x : Int => x + 1, [], []⟩ [] [] []
        = Except.ok ([] : List Int)
      ∧ emap (fun x : Int => x + 1) (some [])
        = .deferred ⟨mapTrans, fun x : Int => x + 1, [], []⟩
      ∧ immediateElems (emap (fun x : Int => x + 1) (some [])) = none := by
  exact ⟨rfl, rfl, rfl⟩

/-- C2 (amended to truthy, i.e. nonempty, sequences): deferred
application equals immediate application — `emap f none` is the deferred
object, applying it to a nonempty `s` gives `map f s`, and
`emap f (some s)` gives the same immediately. -/
theorem c2_deferred_eq_immediate (f : Int → Int) (s : List Int) (h : s ≠ []) :
    emap f none = .deferred ⟨mapTrans, f, [], []⟩
      ∧ PartialBase.call ⟨mapTrans, f, [], []⟩ s [] [] = .ok (List.map f s)
      ∧ emap f (some s) = .immediate (List.map f s) := by
  refine ⟨rfl, rfl, ?_⟩
  cases s with
  | nil => exact absurd rfl h
  | cons x xs => rfl

/-- C2 witness: concrete nonempty input. -/
theorem c2_witness :
    (([5, 6] : List Int) ≠ [])
      ∧ (emap (fun x : Int => x + 10) none
          = .deferred ⟨mapTrans, fun x : Int => x + 10, [], []⟩
        ∧ PartialBase.call ⟨mapTrans, fun x : Int => x + 10, [], []⟩ [5, 6] [] []
          = .ok [15, 16]
        ∧ emap (fun x : Int => x + 10) (some [5, 6]) = .immediate [15, 16]) :=
  ⟨by decide, c2_deferred_eq_immediate (fun x => x + 10) [5, 6] (by decide)⟩

/-- C4 counterexample: `ereduce` applied to a single non-iterable extra
argument returns a deferred operation — no error is raised at dispatch,
contrary to the claim. -/
theorem c4_counterexample :
    ereduce (fun a b => a + b) [Val.int 5]
      = .deferred ⟨reduceTrans, fun a b => a + b, [Val.int 5], []⟩ := rfl

/-- C4 (amended): `ereduce f x` with non-iterable `x` does not raise; it
returns a deferred operation that stores `x` as an extra positional
argument, and applying that deferred to an iterable later runs `reduce`
with `x` as the initial value. -/
theorem c4_nonIterable_defers (f : Int → Int → Int) (n : Int) (s : List Int) :
    ereduce f [Val.int n] = .deferred ⟨reduceTrans, f, [Val.int n], []⟩
      ∧ PartialBase.call ⟨reduceTrans, f, [Val.int n], []⟩ s [] []
        = .ok (.int (s.foldl f n)) :=
  ⟨rfl, rfl⟩

/-- C10: with a falsy iterable argument — the empty list — `emap` and
`efilter` both return a deferred operation rather than applying the
primitive, exactly as they do for `None`, because the dispatch tests the
truthiness of the argument. -/
theorem c10_falsy_iterable_defers (f : Int → Int) (g : Int → Bool) :
    emap f (some []) = .deferred ⟨mapTrans, f, [], []⟩
      ∧ efilter g (some []) = .deferred ⟨filterTrans, g, [], []⟩
      ∧ truthy (some []) = false
      ∧ truthy none = false
      ∧ emap f none = .deferred ⟨mapTrans, f, [], []⟩
      ∧ efilter g none = .deferred ⟨filterTrans, g, [], []⟩ :=
  ⟨rfl, rfl, rfl, rfl, rfl, rfl⟩

/-- C3 counterexample: `esorted(reverse=False)` produces a deferred
operation whose call accepts only the iterable; invoking it with
`reverse=True` supplied at call time raises `TypeError` instead of
succeeding with the call-time value winning. -/
theorem c3_counterexample :
    FunctionPartialPipe.call esorted [] [("reverse", KwVal.bool false)]
        = .deferredP ⟨Prim.sorted, [], [("reverse", KwVal.bool false)]⟩
      ∧ PartialPipe.callWith ⟨Prim.sorted, [], [("reverse", KwVal.bool false)]⟩
          [1, 3, 2] [("reverse", KwVal.bool true)] = .error .typeError
      ∧ PartialPipe.callWith ⟨Prim.sorted, [], [("reverse", KwVal.bool false)]⟩
          [1, 3, 2] [("reverse", KwVal.bool true)] ≠ .ok (Val.list [3, 2, 1]) := by
  refine ⟨rfl, rfl, ?_⟩
  intro h
  exact Except.noConfusion h

/-- C3 (amended): a deferred operation produced by `esorted` accepts only
the iterable at call time, so supplying `reverse=True` then raises
`TypeError`; the stored keyword alone decides the order — stored
`reverse=False` sorts ascending and stored `reverse=True` sorts
descending when the deferred is invoked with just the iterable. -/
theorem c3_stored_reverse (xs : List Int) :
    PartialPipe.callWith ⟨Prim.sorted, [], [("reverse", KwVal.bool false)]⟩
        xs [("reverse", KwVal.bool true)] = .error .typeError
      ∧ PartialPipe.callWith ⟨Prim.sorted, [], [("reverse", KwVal.bool false)]⟩
          xs [] = .ok (.list (pySort xs false))
      ∧ PartialPipe.callWith ⟨Prim.sorted, [], [("reverse", KwVal.bool true)]⟩
          xs [] = .ok (.list (pySort xs true)) :=
  ⟨rfl, rfl, rfl⟩

/-- C5: a deferred unary-family operation invoked with an iterable, new
positional arguments and new keyword arguments calls the underlying
primitive with the stored positionals preceding the new ones and the two
keyword dicts merged; on a key collision the call-time dict wins. -/
theorem c5_call_merge_semantics (φ ρ : Type) (pb : PartialBase φ ρ)
    (iterable : List Int) (newArgs : List Val) (newKwargs : Kwargs) :
    pb.call iterable newArgs newKwargs
        = pb.transformation pb.function iterable (pb.args ++ newArgs)
            (mergeKw pb.kwargs newKwargs)
      ∧ ∀ k, lookupKw (mergeKw pb.kwargs newKwargs) k
          = match lookupKw newKwargs k with
            | some v => some v
            | none => lookupKw pb.kwargs k :=
  ⟨rfl, fun k => lookup_mergeKw pb.kwargs newKwargs k⟩

/-- C6: for both deferred-operation families, piping an iterable into the
deferred object equals invoking the object with that iterable as its sole
argument. -/
theorem c6_pipe_equals_call :
    (∀ (φ ρ : Type) (pb : PartialBase φ ρ) (s : List Int),
      pb.ror s = pb.call s [] [])
      ∧ ∀ (p : PartialPipe) (s : List Int), p.ror s = p.call s :=
  ⟨fun _ _ _ _ => rfl, fun _ _ => rfl⟩

/-- C7: a single deferred object from `efilter f` carries exactly the
stored function with no extra arguments, and applying it (by call or by
pipe) to two different sequences yields the independently correct filter
of each — application reads the stored state and never alters it. -/
theorem c7_deferred_reusable (f : Int → Bool) (s1 s2 : List Int) :
    efilter f none = .deferred ⟨filterTrans, f, [], []⟩
      ∧ PartialBase.call ⟨filterTrans, f, [], []⟩ s1 [] []
        = .ok (List.filter f s1)
      ∧ PartialBase.call ⟨filterTrans, f, [], []⟩ s2 [] []
        = .ok (List.filter f s2)
      ∧ PartialBase.ror ⟨filterTrans, f, [], []⟩ s1
        = .ok (List.filter f s1)
      ∧ PartialBase.ror ⟨filterTrans, f, [], []⟩ s2
        = .ok (List.filter f s2) :=
  ⟨rfl, rfl, rfl, rfl, rfl⟩

/-- C8: piping an iterable into an iterable-first wrapper instance itself
applies the wrapped primitive directly with no extra arguments — for all
three instances — and in particular `[1,2,3] | esum` is `6`, while
`esum()` defers with nothing stored and the resulting deferred applied to
`[1,2,3]` is also `6`. -/
theorem c8_wrapper_pipe_direct :
    (∀ xs : List Int, esum.ror xs = .ok (.int (xs.foldl (· + ·) 0)))
      ∧ (∀ xs : List Int, esorted.ror xs = .ok (.list (pySort xs false)))
      ∧ (∀ xs : List Int, ereversed.ror xs = .ok (.list xs.reverse))
      ∧ FunctionPartialPipe.ror esum [1, 2, 3] = .ok (.int 6)
      ∧ FunctionPartialPipe.call esum [] [] = .deferredP ⟨Prim.sum, [], []⟩
      ∧ PartialPipe.call ⟨Prim.sum, [], []⟩ [1, 2, 3] = .ok (.int 6) :=
  ⟨fun _ => rfl, fun _ => rfl, fun _ => rfl, rfl, rfl, rfl⟩

/-- C9: `ereduce` takes the immediate path exactly when a first extra
positional argument exists and has the iteration attribute; and the
boundary case with an explicit initial value over the empty list is
immediate and evaluates to that initial value without error. -/
theorem c9_reduce_dispatch :
    (∀ (f : Int → Int → Int) (args : List Val),
      (ereduce f args).isImmediate = true
        ↔ ∃ a rest, args = a :: rest ∧ hasIterAttr a = true)
      ∧ ereduce (fun a b => a + b) [Val.list [], Val.int 0]
        = .immediate (Except.ok (Val.int 0)) := by
  refine ⟨fun f args => ?_, rfl⟩
  cases args with
  | nil => simp [ereduce, WrapResult.isImmediate]
  | cons a rest =>
    cases a with
    | int n => simp [ereduce, WrapResult.isImmediate, hasIterAttr]
    | list xs =>
      simp only [ereduce, WrapResult.isImmediate, true_iff]
      exact ⟨.list xs, rest, rfl, rfl⟩
